import Mathlib

/-!
Verification development for the sentiment-analysis service
(`src/server/routes.ts`, schemas in `src/shared/schema.ts`).

The development shallowly embeds:

* the JavaScript-value level normalization of a decoded provider reply
  (`routes.ts` lines 62-74 and 193-206, two identical blocks), including the
  semantics of the `||` and `??` operators on loose JSON values;
* the typed data model of `shared/schema.ts`
  (`SentimentAnalysisResult`, `BatchFeedbackItem`, `BatchAnalysisSummary`);
* the batch pipeline of `POST /api/analyze/batch` (`routes.ts` lines 101-162):
  item creation from the input index, chunked concurrent dispatch modelled as
  an arbitrary interleaving of per-index slot updates, and the results list;
* the retry wrapper `analyzeSingleFeedback` (`routes.ts` lines 170-217);
* the aggregator `generateBatchSummary` (`routes.ts` lines 219-303), including
  insertion-ordered count records with the ECMAScript own-property enumeration
  order (integer-like keys in ascending numeric order first) and the stable
  descending sort performed by `Array.prototype.sort`;
* the HTTP dispatch of `POST /api/analyze` (`routes.ts` lines 25-98).

JavaScript numbers are modelled as `Int` (scores are integers in all claims
under study; none of the settled claims depends on floating-point rounding),
and the arithmetic mean is computed in `ℚ` with `Math.round` modelled as
`fun q => Int.floor (q + 1/2)`.
-/

/-! ### JavaScript value model

`JsVal` models a decoded JSON value (plus `undefined`, which property access
on a non-object produces).  `truthy` is JavaScript truthiness, `jsOr` is
`a || b`, `jsNullish` is `a ?? b`. -/

inductive JsVal where
  | undefined
  | nullv
  | num (n : Int)
  | str (s : String)
  | boolv (b : Bool)
  | arr (elems : List JsVal)
  | obj (fields : List (String × JsVal))

def truthy : JsVal → Bool
  | .undefined => false
  | .nullv => false
  | .num n => n != 0
  | .str s => s != ""
  | .boolv b => b
  | .arr _ => true
  | .obj _ => true

def jsOr (a d : JsVal) : JsVal := if truthy a then a else d

def jsNullish (a d : JsVal) : JsVal :=
  match a with
  | .undefined => d
  | .nullv => d
  | v => v

/-- Property access `v[k]` on a decoded JSON value: a lookup on objects
(object keys are unique, so the first match is the value), `undefined` on any
other non-null value.  Access on `null`/`undefined` throws in JavaScript; the
embedding never applies `fieldOf` to those (see `normalizeReply`). -/
def fieldOf (v : JsVal) (k : String) : JsVal :=
  match v with
  | .obj fs =>
    match fs.find? (fun p => p.1 == k) with
    | some p => p.2
    | none => .undefined
  | _ => .undefined

/-- The shape of the object literal built at `routes.ts` lines 62-74 and
194-206: one JavaScript value per result field, in source order. -/
structure NormalizedRaw where
  sentiment : JsVal
  sentimentScore : JsVal
  confidence : JsVal
  urgencyLevel : JsVal
  customerIntent : JsVal
  emotions : JsVal
  keyPhrases : JsVal
  insights : JsVal
  recommendations : JsVal
  summary : JsVal
  detailedAnalysis : JsVal

/-- Normalization of a decoded provider reply (`routes.ts` 62-74 = 194-206).
Field access on the JSON literal `null` (or `undefined`) throws a `TypeError`
in JavaScript, which the surrounding `try`/`catch` turns into an error
response (single mode) or a failed attempt (batch mode); this is the `none`
case.  Every other decoded value yields an object via `||` / `??` defaulting:
no clamping and no enum validation is performed. -/
def normalizeReply : JsVal → Option NormalizedRaw
  | .undefined => none
  | .nullv => none
  | v => some
      { sentiment := jsOr (fieldOf v "sentiment") (.str "neutral")
        sentimentScore := jsNullish (fieldOf v "sentimentScore") (.num 50)
        confidence := jsNullish (fieldOf v "confidence") (.num 0)
        urgencyLevel := jsOr (fieldOf v "urgencyLevel") (.str "medium")
        customerIntent := jsOr (fieldOf v "customerIntent") (.str "")
        emotions := jsOr (fieldOf v "emotions") (.arr [])
        keyPhrases := jsOr (fieldOf v "keyPhrases") (.arr [])
        insights := jsOr (fieldOf v "insights") (.arr [])
        recommendations := jsOr (fieldOf v "recommendations") (.arr [])
        summary := jsOr (fieldOf v "summary") (.str "")
        detailedAnalysis := jsOr (fieldOf v "detailedAnalysis") (.str "") }

/-- Is the value an integer in the declared numeric range 0-100? -/
def isNumInRange : JsVal → Bool
  | .num n => decide (0 ≤ n ∧ n ≤ 100)
  | _ => false

/-- Is the value one of the declared sentiment enum strings? -/
def isSentimentStr : JsVal → Bool
  | .str s => s == "positive" || s == "negative" || s == "neutral"
  | _ => false

/-- Is the value one of the declared urgency enum strings? -/
def isUrgencyStr : JsVal → Bool
  | .str s => s == "critical" || s == "high" || s == "medium" || s == "low"
  | _ => false

/-! ### Typed data model (`shared/schema.ts`) -/

inductive Sentiment where
  | positive
  | negative
  | neutral
deriving DecidableEq

inductive Urgency where
  | critical
  | high
  | medium
  | low
deriving DecidableEq

inductive Priority where
  | high
  | medium
  | low
deriving DecidableEq

inductive RecCategory where
  | customer_service
  | product
  | process
  | communication
  | technical
deriving DecidableEq

inductive Impact where
  | high
  | medium
  | low
deriving DecidableEq

inductive Timeframe where
  | immediate
  | short_term
  | long_term
deriving DecidableEq

structure Emotion where
  name : String
  intensity : Int
deriving DecidableEq

structure KeyPhrase where
  phrase : String
  sentiment : Sentiment
deriving DecidableEq

structure Insight where
  text : String
  priority : Priority
deriving DecidableEq

structure Recommendation where
  title : String
  description : String
  category : RecCategory
  impact : Impact
  timeframe : Timeframe
deriving DecidableEq

structure SentimentAnalysisResult where
  sentiment : Sentiment
  sentimentScore : Int
  confidence : Int
  urgencyLevel : Urgency
  customerIntent : String
  emotions : List Emotion
  keyPhrases : List KeyPhrase
  insights : List Insight
  recommendations : List Recommendation
  summary : String
  detailedAnalysis : String
deriving DecidableEq

inductive FeedbackStatus where
  | pending
  | processing
  | completed
  | error
deriving DecidableEq

/-- `BatchFeedbackItem` of `shared/schema.ts`, generic in the result payload
type so that lifecycle facts are independent of the result representation. -/
structure BatchFeedbackItem (α : Type) where
  id : String
  feedback : String
  status : FeedbackStatus
  result : Option α := none
  error : Option String := none
deriving DecidableEq

/-! ### Batch pipeline (`routes.ts` lines 101-162)

`feedbacks.map((feedback, index) => ...)` creates the item list; each item's
analysis then writes only its own slot (`items[itemIndex]`), so the pipeline
is modelled as a fold of per-index slot updates over the item list.  The
`us` argument is the sequence of (index, outcome) writes in completion order;
the real scheduler produces some interleaving of exactly one write per index
(chunks of 5 with a barrier), i.e. a permutation of `canonicalUpdates`. -/

def mkItem {α : Type} (i : Nat) (fb : String) : BatchFeedbackItem α :=
  { id := "feedback-" ++ toString (i + 1), feedback := fb, status := .pending }

def initialItemsFrom {α : Type} (start : Nat) : List String → List (BatchFeedbackItem α)
  | [] => []
  | fb :: fbs => mkItem start fb :: initialItemsFrom (start + 1) fbs

def initialItems {α : Type} (fbs : List String) : List (BatchFeedbackItem α) :=
  initialItemsFrom 0 fbs

def modifyIdx {α : Type} (f : α → α) : Nat → List α → List α
  | _, [] => []
  | 0, x :: xs => f x :: xs
  | n + 1, x :: xs => x :: modifyIdx f n xs

/-- `items[itemIndex].status = "processing"` (`routes.ts` line 127). -/
def setProcessing {α : Type} (it : BatchFeedbackItem α) : BatchFeedbackItem α :=
  { it with status := .processing }

/-- The per-item outcome writes of `routes.ts` lines 131-138: on success the
result is attached and the status becomes `completed`; on soft failure the
status becomes `error` with the fixed message. -/
def recordOutcome {α : Type} (out : Option α) (it : BatchFeedbackItem α) : BatchFeedbackItem α :=
  match out with
  | some r => { it with result := some r, status := .completed }
  | none => { it with status := .error, error := some "Analysis failed after retries" }

def applyUpdate {α : Type} (items : List (BatchFeedbackItem α)) (u : Nat × Option α) :
    List (BatchFeedbackItem α) :=
  modifyIdx (fun it => recordOutcome u.2 (setProcessing it)) u.1 items

def runUpdates {α : Type} (us : List (Nat × Option α)) (items : List (BatchFeedbackItem α)) :
    List (BatchFeedbackItem α) :=
  us.foldl applyUpdate items

/-- One write per index, in submission order: the canonical completion order. -/
def canonicalUpdates {α : Type} (oracle : Nat → Option α) (n : Nat) : List (Nat × Option α) :=
  (List.range n).map (fun i => (i, oracle i))

def runBatch {α : Type} (fbs : List String) (us : List (Nat × Option α)) :
    List (BatchFeedbackItem α) :=
  runUpdates us (initialItems fbs)

/-- `results`: the successful outcomes in submission order (`Promise.all`
returns chunk results in submission order and nulls are filtered out,
`routes.ts` line 143). -/
def resultsOf {α : Type} (oracle : Nat → Option α) (n : Nat) : List α :=
  (List.range n).filterMap oracle

/-! ### Retry wrapper `analyzeSingleFeedback` (`routes.ts` lines 170-217) -/

/-- What one provider call does: throw (network or API error), return a
response without content, return content that fails `JSON.parse`, or return
content that decodes to a JSON value. -/
inductive AttemptOutcome where
  | exn (msg : String)
  | empty
  | malformed (msg : String)
  | json (v : JsVal)

/-- An attempt succeeds exactly when the call returned content that decodes
to a JSON value whose normalization does not throw (`JSON.parse` failures and
the `TypeError` on a `null` decode are caught by the same `try`/`catch` and
become failed attempts, as do thrown calls and empty content). -/
def attemptSuccess : AttemptOutcome → Option NormalizedRaw
  | .json v => normalizeReply v
  | _ => none

def retryGo (attempts : Nat → AttemptOutcome) (retries : Nat) :
    Nat → Nat → Option NormalizedRaw
  | 0, _ => none
  | fuel + 1, attempt =>
    match attemptSuccess (attempts attempt) with
    | some r => some r
    | none =>
      if attempt < retries then retryGo attempts retries fuel (attempt + 1) else none

/-- The retry loop: attempts run at numbers `1..retries` (default budget 2 in
batch mode); a failed attempt below the budget continues, the final one
returns `null` (modelled as `none`).  The linear backoff delay does not
affect the value returned and is not modelled. -/
def analyzeSingleFeedback (attempts : Nat → AttemptOutcome) (retries : Nat := 2) :
    Option NormalizedRaw :=
  retryGo attempts retries retries 1

/-! ### Count records and sorting for the aggregator

`emotionCounts`, `phraseCounts` and `recCounts` are plain JavaScript objects
used as string-keyed records.  The store keeps first-insertion order;
`Object.entries` / `Object.values` enumerate integer-like keys (canonical
numeric strings below 2^32 - 1, the ECMAScript array-index keys) in ascending
numeric order first, then the remaining keys in insertion order.
`Array.prototype.sort` is stable (ES2019), modelled as a stable insertion
sort. -/

def countStep (m : List (String × Nat)) (k : String) : List (String × Nat) :=
  if m.any (fun p => p.1 == k) then
    m.map (fun p => if p.1 = k then (p.1, p.2 + 1) else p)
  else m ++ [(k, 1)]

def countMap (ks : List String) : List (String × Nat) :=
  ks.foldl countStep []

def digitsToNat : List Char → Nat → Nat
  | [], acc => acc
  | c :: cs, acc => digitsToNat cs (acc * 10 + (c.toNat - '0'.toNat))

def decimalValue? (s : String) : Option Nat :=
  if !s.data.isEmpty && s.data.all Char.isDigit then some (digitsToNat s.data 0) else none

/-- ECMAScript array-index property key: a canonical numeric string whose
value is below 2^32 - 1. -/
def isArrayIndex (s : String) : Bool :=
  match decimalValue? s with
  | some n => decide (n < 4294967295) && (toString n == s)
  | none => false

def keyNum (s : String) : Nat := (decimalValue? s).getD 0

def insertCountDesc {α : Type} (x : α × Nat) : List (α × Nat) → List (α × Nat)
  | [] => [x]
  | y :: ys => if y.2 > x.2 then y :: insertCountDesc x ys else x :: y :: ys

/-- Stable sort by count descending: the model of
`.sort((a, b) => b.count - a.count)` on an array of counted entries. -/
def sortCountDesc {α : Type} (l : List (α × Nat)) : List (α × Nat) :=
  l.foldr insertCountDesc []

def insertKeyAsc {β : Type} (x : String × β) : List (String × β) → List (String × β)
  | [] => [x]
  | y :: ys => if keyNum y.1 < keyNum x.1 then y :: insertKeyAsc x ys else x :: y :: ys

def sortKeyAsc {β : Type} (l : List (String × β)) : List (String × β) :=
  l.foldr insertKeyAsc []

/-- `Object.entries` / `Object.values` enumeration order of a string-keyed
record: array-index keys ascending, then the rest in insertion order. -/
def entriesJS {β : Type} (m : List (String × β)) : List (String × β) :=
  sortKeyAsc (m.filter (fun p => isArrayIndex p.1)) ++ m.filter (fun p => !isArrayIndex p.1)

/-- `Math.round` on the exact rational mean: round half toward positive
infinity. -/
def jsRound (q : ℚ) : Int := ⌊q + 1 / 2⌋

def jsToLower (s : String) : String := ⟨s.data.map Char.toLower⟩

/-! ### Aggregator helpers (named subexpressions of `generateBatchSummary`) -/

def emotionKeysOf (results : List SentimentAnalysisResult) : List String :=
  results.flatMap (fun r => r.emotions.map (fun e => e.name))

def emotionCountMap (results : List SentimentAnalysisResult) : List (String × Nat) :=
  countMap (emotionKeysOf results)

def emotionPairsSorted (results : List SentimentAnalysisResult) : List (String × Nat) :=
  sortCountDesc (entriesJS (emotionCountMap results))

/-- `topEmotions` (`routes.ts` 247-250): entries sorted by count descending,
top 5. -/
def topEmotionsOf (results : List SentimentAnalysisResult) : List (String × Nat) :=
  (emotionPairsSorted results).take 5

def phraseKeysOf (results : List SentimentAnalysisResult) : List String :=
  results.flatMap (fun r => r.keyPhrases.map (fun kp => jsToLower kp.phrase))

def phraseCountMap (results : List SentimentAnalysisResult) : List (String × Nat) :=
  countMap (phraseKeysOf results)

def themePairsFiltered (results : List SentimentAnalysisResult) : List (String × Nat) :=
  (entriesJS (phraseCountMap results)).filter (fun p => decide (1 < p.2))

def themePairsSorted (results : List SentimentAnalysisResult) : List (String × Nat) :=
  sortCountDesc (themePairsFiltered results)

/-- `commonThemes` (`routes.ts` 260-272): lowercased phrases with total
occurrence count above 1, sorted by count descending, top 10. -/
def commonThemesOf (results : List SentimentAnalysisResult) : List String :=
  ((themePairsSorted results).take 10).map (fun p => p.1)

def recStep (m : List (String × (Recommendation × Nat))) (rc : Recommendation) :
    List (String × (Recommendation × Nat)) :=
  let k := jsToLower rc.title
  if m.any (fun p => p.1 == k) then
    m.map (fun p => if p.1 = k then (p.1, (p.2.1, p.2.2 + 1)) else p)
  else m ++ [(k, (rc, 1))]

def recCountMap (results : List SentimentAnalysisResult) :
    List (String × (Recommendation × Nat)) :=
  (results.flatMap (fun r => r.recommendations)).foldl recStep []

def recPairsSorted (results : List SentimentAnalysisResult) : List (Recommendation × Nat) :=
  sortCountDesc ((entriesJS (recCountMap results)).map (fun p => p.2))

/-- `overallRecommendations` (`routes.ts` 274-289): grouped by lowercased
title keeping the first representative, sorted by group count descending,
top 5. -/
def overallRecommendationsOf (results : List SentimentAnalysisResult) : List Recommendation :=
  ((recPairsSorted results).take 5).map (fun p => p.1)

structure UrgencyBreakdown where
  critical : Nat
  high : Nat
  medium : Nat
  low : Nat
deriving DecidableEq

structure BatchAnalysisSummary where
  totalCount : Nat
  positiveCount : Nat
  negativeCount : Nat
  neutralCount : Nat
  averageSentimentScore : Int
  averageConfidence : Int
  topEmotions : List (String × Nat)
  urgencyBreakdown : UrgencyBreakdown
  commonThemes : List String
  overallRecommendations : List Recommendation
deriving DecidableEq

/-- `generateBatchSummary` (`routes.ts` lines 219-303).  `results` contains
no nulls (they are filtered out before the push at line 143), so
`results.filter(Boolean)` is `results` itself. -/
def generateBatchSummary (items : List (BatchFeedbackItem SentimentAnalysisResult))
    (results : List SentimentAnalysisResult) : BatchAnalysisSummary :=
  let completedResults := results
  { totalCount := items.length
    positiveCount := (completedResults.filter (fun r => r.sentiment == .positive)).length
    negativeCount := (completedResults.filter (fun r => r.sentiment == .negative)).length
    neutralCount := (completedResults.filter (fun r => r.sentiment == .neutral)).length
    averageSentimentScore :=
      if completedResults.length > 0 then
        jsRound ((completedResults.map (fun r => (r.sentimentScore : ℚ))).sum
          / completedResults.length)
      else 0
    averageConfidence :=
      if completedResults.length > 0 then
        jsRound ((completedResults.map (fun r => (r.confidence : ℚ))).sum
          / completedResults.length)
      else 0
    topEmotions := topEmotionsOf completedResults
    urgencyBreakdown :=
      { critical := (completedResults.filter (fun r => r.urgencyLevel == .critical)).length
        high := (completedResults.filter (fun r => r.urgencyLevel == .high)).length
        medium := (completedResults.filter (fun r => r.urgencyLevel == .medium)).length
        low := (completedResults.filter (fun r => r.urgencyLevel == .low)).length }
    commonThemes := commonThemesOf completedResults
    overallRecommendations := overallRecommendationsOf completedResults }

/-! ### HTTP endpoints -/

/-- What the single upstream interaction of `POST /api/analyze` produced:
content states of a successful transport, or a thrown error (with or without
an HTTP status attached — connection timeouts carry none). -/
inductive ProviderOutcome where
  | emptyContent
  | malformedContent (msg : String)
  | jsonContent (v : JsVal)
  | errStatus (code : Nat) (msg : String)
  | errTimeout (msg : String)
  | errOther (msg : String)

inductive AnalyzeResponse where
  | badRequest
  | unauthorized
  | rateLimited
  | serverError (msg : String)
  | ok (r : NormalizedRaw)

def statusCode : AnalyzeResponse → Nat
  | .badRequest => 400
  | .unauthorized => 401
  | .rateLimited => 429
  | .serverError _ => 500
  | .ok _ => 200

/-- Zod schema `feedback: string().min(1).max(5000)`. -/
def validFeedback (s : String) : Bool := 1 ≤ s.length && s.length ≤ 5000

/-- Message of the `TypeError` thrown when normalization dereferences a
decoded `null` (caught by the endpoint's `catch` and surfaced as the 500
branch with `error.message`). -/
def nullFieldAccessMsg : String := "Cannot read properties of null"

/-- `POST /api/analyze` (`routes.ts` lines 25-98): 400 on schema violation;
otherwise the `try` body runs the provider call and normalization, and the
`catch` maps a thrown error with status 401 to 401, status 429 to 429, and
everything else (timeouts included — no branch distinguishes them) to 500. -/
def handleAnalyze (body : Option String) (outcome : ProviderOutcome) : AnalyzeResponse :=
  match body with
  | none => .badRequest
  | some fb =>
    if validFeedback fb then
      match outcome with
      | .emptyContent => .serverError "Empty response from AI"
      | .malformedContent msg => .serverError msg
      | .jsonContent v =>
        match normalizeReply v with
        | some nr => .ok nr
        | none => .serverError nullFieldAccessMsg
      | .errStatus code msg =>
        if code == 401 then .unauthorized
        else if code == 429 then .rateLimited
        else .serverError msg
      | .errTimeout msg => .serverError msg
      | .errOther msg => .serverError msg
    else .badRequest

inductive BatchResponse where
  | badRequest
  | ok (items : List (BatchFeedbackItem SentimentAnalysisResult))
      (summary : BatchAnalysisSummary)

/-- Zod schema `feedbacks: string().min(1).max(5000) array, 1 to 100 items`. -/
def validBatchBody (fbs : List String) : Bool :=
  1 ≤ fbs.length && fbs.length ≤ 100 && fbs.all validFeedback

/-- `POST /api/analyze/batch` (`routes.ts` lines 101-162): 400 on schema
violation, otherwise the processed item list plus its summary.  `us` is the
completion order of the per-item slot writes (see `runBatch`). -/
def handleBatch (body : Option (List String)) (oracle : Nat → Option SentimentAnalysisResult)
    (us : List (Nat × Option SentimentAnalysisResult)) : BatchResponse :=
  match body with
  | none => .badRequest
  | some fbs =>
    if validBatchBody fbs then
      let items := runBatch fbs us
      .ok items (generateBatchSummary items (resultsOf oracle fbs.length))
    else .badRequest

/-! ### Per-item state machine

The three mutation sites of the scheduler (`routes.ts` lines 127, 132-133 and
136-137) as a transition relation on one item. -/

inductive ItemStep {α : Type} : BatchFeedbackItem α → BatchFeedbackItem α → Prop
  | start (it : BatchFeedbackItem α) :
      it.status = .pending → ItemStep it { it with status := .processing }
  | complete (it : BatchFeedbackItem α) (r : α) :
      it.status = .processing → ItemStep it { it with result := some r, status := .completed }
  | fail (it : BatchFeedbackItem α) (msg : String) :
      it.status = .processing → ItemStep it { it with status := .error, error := some msg }

def ItemReachable {α : Type} (it₀ it : BatchFeedbackItem α) : Prop :=
  Relation.ReflTransGen ItemStep it₀ it

/-! ### Pipeline lemmas -/

theorem modifyIdx_length {α : Type} (f : α → α) (n : Nat) (l : List α) :
    (modifyIdx f n l).length = l.length := by
  induction l generalizing n with
  | nil => cases n <;> rfl
  | cons x xs ih => cases n with
    | zero => rfl
    | succ m => simpa [modifyIdx] using ih m

theorem modifyIdx_getElem? {α : Type} (f : α → α) (n k : Nat) (l : List α) :
    (modifyIdx f n l)[k]? = if n = k then l[k]?.map f else l[k]? := by
  induction l generalizing n k with
  | nil => cases n <;> cases k <;> simp [modifyIdx]
  | cons x xs ih =>
    cases n with
    | zero => cases k <;> simp [modifyIdx]
    | succ m =>
      cases k with
      | zero => simp [modifyIdx]
      | succ j => simpa [modifyIdx, Nat.succ_inj] using ih m j

theorem applyUpdate_getElem? {α : Type} (items : List (BatchFeedbackItem α))
    (u : Nat × Option α) (k : Nat) :
    (applyUpdate items u)[k]? =
      if u.1 = k then items[k]?.map (fun it => recordOutcome u.2 (setProcessing it))
      else items[k]? := by
  rw [applyUpdate, modifyIdx_getElem?]

theorem runUpdates_cons {α : Type} (u : Nat × Option α) (us : List (Nat × Option α))
    (items : List (BatchFeedbackItem α)) :
    runUpdates (u :: us) items = runUpdates us (applyUpdate items u) := rfl

theorem runUpdates_length {α : Type} (us : List (Nat × Option α))
    (items : List (BatchFeedbackItem α)) :
    (runUpdates us items).length = items.length := by
  induction us generalizing items with
  | nil => rfl
  | cons u us ih =>
    rw [runUpdates_cons, ih (applyUpdate items u), applyUpdate, modifyIdx_length]

theorem runUpdates_getElem?_not_mem {α : Type} (us : List (Nat × Option α))
    (items : List (BatchFeedbackItem α)) (k : Nat) (h : k ∉ us.map Prod.fst) :
    (runUpdates us items)[k]? = items[k]? := by
  induction us generalizing items with
  | nil => rfl
  | cons u us ih =>
    have hne : u.1 ≠ k := by
      intro he; exact h (by simp [he])
    have hk : k ∉ us.map Prod.fst := by
      intro hm; exact h (by simp [hm])
    rw [runUpdates_cons, ih (applyUpdate items u) hk, applyUpdate_getElem?, if_neg hne]

theorem runUpdates_getElem? {α : Type} (us : List (Nat × Option α))
    (items : List (BatchFeedbackItem α)) (k : Nat) (o : Option α)
    (hnd : (us.map Prod.fst).Nodup) (hmem : (k, o) ∈ us) :
    (runUpdates us items)[k]? =
      items[k]?.map (fun it => recordOutcome o (setProcessing it)) := by
  induction us generalizing items with
  | nil => cases hmem
  | cons u us ih =>
    rcases List.mem_cons.mp hmem with he | hm
    · subst he
      have hk : k ∉ us.map Prod.fst := by
        have := List.nodup_cons.mp hnd
        simpa using this.1
      rw [runUpdates_cons, runUpdates_getElem?_not_mem us _ k hk, applyUpdate_getElem?,
        if_pos rfl]
    · have hkmem : k ∈ us.map Prod.fst := List.mem_map.mpr ⟨(k, o), hm, rfl⟩
      have hne : u.1 ≠ k := by
        have := (List.nodup_cons.mp hnd).1
        intro he; exact this (he ▸ hkmem)
      have hnd' : (us.map Prod.fst).Nodup := (List.nodup_cons.mp hnd).2
      rw [runUpdates_cons, ih (applyUpdate items u) hnd' hm, applyUpdate_getElem?, if_neg hne]

theorem initialItemsFrom_getElem? {α : Type} (fbs : List String) (start k : Nat) :
    (initialItemsFrom (α := α) start fbs)[k]? = fbs[k]?.map (mkItem (start + k)) := by
  induction fbs generalizing start k with
  | nil => simp [initialItemsFrom]
  | cons fb fbs ih =>
    cases k with
    | zero => simp [initialItemsFrom]
    | succ j =>
      have := ih (start + 1) j
      simpa [initialItemsFrom, Nat.add_assoc, Nat.add_comm 1 j] using this

theorem initialItems_getElem? {α : Type} (fbs : List String) (k : Nat) :
    (initialItems (α := α) fbs)[k]? = fbs[k]?.map (mkItem k) := by
  simpa [initialItems] using initialItemsFrom_getElem? (α := α) fbs 0 k

theorem initialItems_length {α : Type} (fbs : List String) :
    (initialItems (α := α) fbs).length = fbs.length := by
  rw [initialItems]
  generalize 0 = s
  induction fbs generalizing s with
  | nil => rfl
  | cons fb fbs ih => simpa [initialItemsFrom] using ih (s + 1)

theorem canonicalUpdates_map_fst {α : Type} (oracle : Nat → Option α) (n : Nat) :
    (canonicalUpdates oracle n).map Prod.fst = List.range n := by
  simp only [canonicalUpdates, List.map_map]
  have h : (Prod.fst ∘ fun i : Nat => (i, oracle i)) = id := rfl
  rw [h, List.map_id]

theorem canonicalUpdates_mem {α : Type} (oracle : Nat → Option α) (n k : Nat) (hk : k < n) :
    (k, oracle k) ∈ canonicalUpdates oracle n :=
  List.mem_map.mpr ⟨k, List.mem_range.mpr hk, rfl⟩

/-- After running any permutation of the canonical per-index writes, slot `k`
holds the finalized initial item. -/
theorem runBatch_getElem? {α : Type} (fbs : List String) (oracle : Nat → Option α)
    (us : List (Nat × Option α)) (hperm : us.Perm (canonicalUpdates oracle fbs.length))
    (k : Nat) (hk : k < fbs.length) :
    (runBatch fbs us)[k]? =
      (fbs[k]?.map (mkItem k)).map
        (fun it => recordOutcome (oracle k) (setProcessing it)) := by
  have hnd : (us.map Prod.fst).Nodup := by
    have h1 : (us.map Prod.fst).Perm ((canonicalUpdates oracle fbs.length).map Prod.fst) :=
      hperm.map Prod.fst
    have h2 : ((canonicalUpdates oracle fbs.length).map Prod.fst).Nodup := by
      rw [canonicalUpdates_map_fst]; exact List.nodup_range _
    exact h2.perm h1.symm
  have hmem : (k, oracle k) ∈ us :=
    hperm.mem_iff.mpr (canonicalUpdates_mem oracle fbs.length k hk)
  rw [runBatch, runUpdates_getElem? us _ k (oracle k) hnd hmem, initialItems_getElem?]

theorem runBatch_length {α : Type} (fbs : List String) (us : List (Nat × Option α)) :
    (runBatch fbs us).length = fbs.length := by
  rw [runBatch, runUpdates_length, initialItems_length]

/-! ### Sorting lemmas (stable descending sort) -/

theorem insertCountDesc_perm {α : Type} (x : α × Nat) (l : List (α × Nat)) :
    (insertCountDesc x l).Perm (x :: l) := by
  induction l with
  | nil => exact List.Perm.refl _
  | cons y ys ih =>
    by_cases h : y.2 > x.2
    · simp only [insertCountDesc, if_pos h]
      exact ((ih.cons y).trans (List.Perm.swap x y ys))
    · simp only [insertCountDesc, if_neg h]
      exact List.Perm.refl _

theorem sortCountDesc_perm {α : Type} (l : List (α × Nat)) :
    (sortCountDesc l).Perm l := by
  induction l with
  | nil => exact List.Perm.refl _
  | cons x xs ih =>
    exact (insertCountDesc_perm x (sortCountDesc xs)).trans (ih.cons x)

theorem insertCountDesc_pairwise {α : Type} (x : α × Nat) (l : List (α × Nat))
    (h : l.Pairwise (fun a b => b.2 ≤ a.2)) :
    (insertCountDesc x l).Pairwise (fun a b => b.2 ≤ a.2) := by
  induction l with
  | nil => simp [insertCountDesc]
  | cons y ys ih =>
    rcases List.pairwise_cons.mp h with ⟨hy, hys⟩
    by_cases hgt : y.2 > x.2
    · simp only [insertCountDesc, if_pos hgt]
      refine List.pairwise_cons.mpr ⟨?_, ih hys⟩
      intro z hz
      have hz' : z ∈ x :: ys := (insertCountDesc_perm x ys).mem_iff.mp hz
      rcases List.mem_cons.mp hz' with rfl | hzys
      · exact Nat.le_of_lt hgt
      · exact hy z hzys
    · simp only [insertCountDesc, if_neg hgt]
      have hxy : y.2 ≤ x.2 := Nat.le_of_not_lt hgt
      refine List.pairwise_cons.mpr ⟨?_, h⟩
      intro z hz
      rcases List.mem_cons.mp hz with rfl | hzys
      · exact hxy
      · exact Nat.le_trans (hy z hzys) hxy

theorem sortCountDesc_pairwise {α : Type} (l : List (α × Nat)) :
    (sortCountDesc l).Pairwise (fun a b => b.2 ≤ a.2) := by
  induction l with
  | nil => simp [sortCountDesc]
  | cons x xs ih => exact insertCountDesc_pairwise x (sortCountDesc xs) ih

theorem insertCountDesc_filter_count {α : Type} (x : α × Nat) (l : List (α × Nat)) (c : Nat) :
    (insertCountDesc x l).filter (fun p => p.2 == c) =
      if x.2 == c then x :: l.filter (fun p => p.2 == c)
      else l.filter (fun p => p.2 == c) := by
  induction l with
  | nil => by_cases h : x.2 == c <;> simp [insertCountDesc, List.filter, h]
  | cons y ys ih =>
    by_cases hgt : y.2 > x.2
    · by_cases hyc : y.2 == c
      · have hxc : (x.2 == c) = false := by
          have hyce : y.2 = c := eq_of_beq hyc
          subst hyce
          exact beq_eq_false_iff_ne.mpr (Nat.ne_of_lt hgt)
        simp only [insertCountDesc, if_pos hgt, List.filter_cons, hyc, ih, hxc]
        simp
      · simp only [insertCountDesc, if_pos hgt, List.filter_cons, hyc, ih]
        simp [hyc]
    · by_cases hxc : x.2 == c <;>
        simp [insertCountDesc, if_neg hgt, List.filter_cons, hxc]

theorem sortCountDesc_filter_count {α : Type} (l : List (α × Nat)) (c : Nat) :
    (sortCountDesc l).filter (fun p => p.2 == c) = l.filter (fun p => p.2 == c) := by
  induction l with
  | nil => rfl
  | cons x xs ih =>
    show (insertCountDesc x (sortCountDesc xs)).filter _ = _
    rw [insertCountDesc_filter_count]
    by_cases hxc : x.2 == c <;> simp [List.filter_cons, hxc, ih]

theorem insertKeyAsc_perm {β : Type} (x : String × β) (l : List (String × β)) :
    (insertKeyAsc x l).Perm (x :: l) := by
  induction l with
  | nil => exact List.Perm.refl _
  | cons y ys ih =>
    by_cases h : keyNum y.1 < keyNum x.1
    · simp only [insertKeyAsc, if_pos h]
      exact ((ih.cons y).trans (List.Perm.swap x y ys))
    · simp only [insertKeyAsc, if_neg h]
      exact List.Perm.refl _

theorem sortKeyAsc_perm {β : Type} (l : List (String × β)) :
    (sortKeyAsc l).Perm l := by
  induction l with
  | nil => exact List.Perm.refl _
  | cons x xs ih =>
    exact (insertKeyAsc_perm x (sortKeyAsc xs)).trans (ih.cons x)

theorem entriesJS_perm {β : Type} (m : List (String × β)) :
    (entriesJS m).Perm m := by
  have h1 : (entriesJS m).Perm
      (m.filter (fun p => isArrayIndex p.1) ++ m.filter (fun p => !isArrayIndex p.1)) :=
    (sortKeyAsc_perm _).append_right _
  exact h1.trans (List.filter_append_perm _ m)

/-! ### Count-record lemmas -/

/-- First-match lookup in a string-keyed record, 0 when absent (the read
`counts[k] || 0`). -/
def lookupC : List (String × Nat) → String → Nat
  | [], _ => 0
  | p :: ps, k => if p.1 = k then p.2 else lookupC ps k

theorem lookupC_eq_zero_of_not_any {m : List (String × Nat)} {k : String}
    (h : m.any (fun p => p.1 == k) = false) : lookupC m k = 0 := by
  induction m with
  | nil => rfl
  | cons q m ih =>
    rw [List.any_cons] at h
    rcases Bool.or_eq_false_iff.mp h with ⟨h1, h2⟩
    have hne : q.1 ≠ k := by simpa using h1
    simp [lookupC, hne, ih h2]

theorem lookupC_bump_self {m : List (String × Nat)} {k : String}
    (h : m.any (fun p => p.1 == k) = true) :
    lookupC (m.map (fun p => if p.1 = k then (p.1, p.2 + 1) else p)) k =
      lookupC m k + 1 := by
  induction m with
  | nil => cases h
  | cons q m ih =>
    by_cases hq : q.1 = k
    · simp [lookupC, hq]
    · rw [List.any_cons] at h
      have h1 : (q.1 == k) = false := by simpa using hq
      rw [h1, Bool.false_or] at h
      simp [lookupC, hq, h1, ih h]

theorem lookupC_bump_other {m : List (String × Nat)} {k k' : String} (hne : k' ≠ k) :
    lookupC (m.map (fun p => if p.1 = k then (p.1, p.2 + 1) else p)) k' =
      lookupC m k' := by
  induction m with
  | nil => rfl
  | cons q m ih =>
    by_cases hq : q.1 = k
    · simp [lookupC, hq, Ne.symm hne, ih]
    · simp [lookupC, hq, ih]

theorem lookupC_append_single_self {m : List (String × Nat)} {k : String}
    (h : m.any (fun p => p.1 == k) = false) :
    lookupC (m ++ [(k, 1)]) k = lookupC m k + 1 := by
  induction m with
  | nil => simp [lookupC]
  | cons q m ih =>
    rw [List.any_cons] at h
    rcases Bool.or_eq_false_iff.mp h with ⟨h1, h2⟩
    have hne : q.1 ≠ k := by simpa using h1
    simp [lookupC, hne, ih h2]

theorem lookupC_append_single_other {m : List (String × Nat)} {k k' : String} (hne : k' ≠ k) :
    lookupC (m ++ [(k, 1)]) k' = lookupC m k' := by
  induction m with
  | nil => simp [lookupC, Ne.symm hne]
  | cons q m ih =>
    by_cases hq : q.1 = k'
    · simp [lookupC, hq]
    · simp [lookupC, hq, ih]

theorem lookupC_countStep_self (m : List (String × Nat)) (k : String) :
    lookupC (countStep m k) k = lookupC m k + 1 := by
  rcases h : m.any (fun p => p.1 == k) with _ | _
  · rw [countStep, if_neg (by simp [h]), lookupC_append_single_self h]
  · rw [countStep, if_pos h, lookupC_bump_self h]

theorem lookupC_countStep_other (m : List (String × Nat)) (k k' : String) (hne : k' ≠ k) :
    lookupC (countStep m k) k' = lookupC m k' := by
  rcases h : m.any (fun p => p.1 == k) with _ | _
  · rw [countStep, if_neg (by simp [h]), lookupC_append_single_other hne]
  · rw [countStep, if_pos h, lookupC_bump_other hne]

theorem lookupC_foldl_countStep (ks : List String) (m : List (String × Nat)) (k : String) :
    lookupC (ks.foldl countStep m) k = lookupC m k + ks.count k := by
  induction ks generalizing m with
  | nil => simp
  | cons k' ks ih =>
    rw [List.foldl_cons, ih (countStep m k')]
    by_cases he : k' = k
    · subst he
      rw [lookupC_countStep_self]
      rw [List.count_cons_self]
      omega
    · rw [lookupC_countStep_other m k' k (fun h => he h.symm)]
      rw [List.count_cons_of_ne (Ne.symm he)]

/-- The record built by folding `countStep` maps each key to its occurrence
count in the key list. -/
theorem lookupC_countMap (ks : List String) (k : String) :
    lookupC (countMap ks) k = ks.count k := by
  simpa [lookupC] using lookupC_foldl_countStep ks [] k

theorem countStep_keys {m : List (String × Nat)} {k : String} :
    (countStep m k).map Prod.fst =
      if m.any (fun p => p.1 == k) then m.map Prod.fst else m.map Prod.fst ++ [k] := by
  by_cases h : m.any (fun p => p.1 == k)
  · simp only [countStep, if_pos h, List.map_map, if_pos h]
    refine List.map_congr_left ?_
    intro p _
    by_cases hp : p.1 = k <;> simp [hp]
  · simp [countStep, if_neg h, h]

theorem countStep_keys_nodup {m : List (String × Nat)} {k : String}
    (h : (m.map Prod.fst).Nodup) : ((countStep m k).map Prod.fst).Nodup := by
  rw [countStep_keys]
  by_cases hany : m.any (fun p => p.1 == k)
  · simpa [hany] using h
  · have hnot : k ∉ m.map Prod.fst := by
      intro hmem
      rcases List.mem_map.mp hmem with ⟨p, hp, hfst⟩
      have : m.any (fun p => p.1 == k) = true :=
        List.any_eq_true.mpr ⟨p, hp, by simp [hfst]⟩
      simp [this] at hany
    rw [if_neg hany]
    have hperm : ((m.map Prod.fst) ++ [k]).Perm (k :: m.map Prod.fst) :=
      List.perm_append_singleton k (m.map Prod.fst)
    exact (List.nodup_cons.mpr ⟨hnot, h⟩).perm hperm.symm

theorem countMap_keys_nodup (ks : List String) : ((countMap ks).map Prod.fst).Nodup := by
  rw [countMap]
  have h : ∀ m : List (String × Nat), (m.map Prod.fst).Nodup →
      ((ks.foldl countStep m).map Prod.fst).Nodup := by
    induction ks with
    | nil => intro m hm; exact hm
    | cons k ks ih =>
      intro m hm
      exact ih (countStep m k) (countStep_keys_nodup hm)
  exact h [] (by simp)

theorem lookupC_of_mem_nodupKeys {m : List (String × Nat)} {k : String} {c : Nat}
    (hnd : (m.map Prod.fst).Nodup) (hmem : (k, c) ∈ m) : lookupC m k = c := by
  induction m with
  | nil => cases hmem
  | cons q m ih =>
    rw [List.map_cons] at hnd
    have hnd' := List.nodup_cons.mp hnd
    rcases List.mem_cons.mp hmem with he | hm
    · subst he
      simp [lookupC]
    · have hq : q.1 ≠ k := by
        intro he
        exact hnd'.1 (he ▸ List.mem_map.mpr ⟨(k, c), hm, rfl⟩)
      simp [lookupC, hq, ih hnd'.2 hm]

/-- Every entry of a count record carries the exact occurrence count of its
key in the source key list. -/
theorem countMap_mem_count {ks : List String} {k : String} {c : Nat}
    (hmem : (k, c) ∈ countMap ks) : c = ks.count k := by
  have h := lookupC_of_mem_nodupKeys (countMap_keys_nodup ks) hmem
  rw [lookupC_countMap] at h
  exact h.symm

theorem foldl_countStep_keys_mem (ks : List String) (m : List (String × Nat)) (k : String) :
    k ∈ (ks.foldl countStep m).map Prod.fst ↔ k ∈ m.map Prod.fst ∨ k ∈ ks := by
  induction ks generalizing m with
  | nil => simp
  | cons k' ks ih =>
    rw [List.foldl_cons, ih (countStep m k'), countStep_keys]
    by_cases h : m.any (fun p => p.1 == k')
    · rw [if_pos h]
      constructor
      · rintro (hm | hks)
        · exact Or.inl hm
        · exact Or.inr (List.mem_cons_of_mem _ hks)
      · rintro (hm | hks)
        · exact Or.inl hm
        · rcases List.mem_cons.mp hks with he | hks'
          · subst he
            rcases List.any_eq_true.mp h with ⟨p, hp, hpk⟩
            exact Or.inl (List.mem_map.mpr ⟨p, hp, by simpa using hpk⟩)
          · exact Or.inr hks'
    · rw [if_neg h]
      simp only [List.mem_append, List.mem_singleton, List.mem_cons]
      tauto

theorem countMap_keys_mem (ks : List String) (k : String) :
    k ∈ (countMap ks).map Prod.fst ↔ k ∈ ks := by
  rw [countMap, foldl_countStep_keys_mem]
  simp

/-! ### Retry-wrapper lemmas -/

theorem retryGo_none_iff (attempts : Nat → AttemptOutcome) (retries : Nat) :
    ∀ (fuel attempt : Nat), attempt + fuel = retries + 1 →
      (retryGo attempts retries fuel attempt = none ↔
        ∀ a, attempt ≤ a → a ≤ retries → attemptSuccess (attempts a) = none) := by
  intro fuel
  induction fuel with
  | zero =>
    intro attempt hinv
    constructor
    · intro _ a ha1 ha2
      omega
    · intro _
      rfl
  | succ f ih =>
    intro attempt hinv
    have hle : attempt ≤ retries := by omega
    rw [retryGo]
    rcases hs : attemptSuccess (attempts attempt) with _ | r
    · by_cases hlt : attempt < retries
      · rw [if_pos hlt]
        rw [ih (attempt + 1) (by omega)]
        constructor
        · intro h a ha1 ha2
          rcases Nat.eq_or_lt_of_le ha1 with he | hlt'
          · exact he ▸ hs
          · exact h a hlt' ha2
        · intro h a ha1 ha2
          exact h a (by omega) ha2
      · rw [if_neg hlt]
        have hae : attempt = retries := by omega
        constructor
        · intro _ a ha1 ha2
          have : a = attempt := by omega
          exact this ▸ hs
        · intro _
          rfl
    · simp only []
      constructor
      · intro h
        cases h
      · intro h
        have := h attempt (Nat.le_refl _) hle
        rw [hs] at this
        cases this

theorem retryGo_first_success (attempts : Nat → AttemptOutcome) (retries : Nat) :
    ∀ (fuel attempt k : Nat) (r : NormalizedRaw), attempt + fuel = retries + 1 →
      attempt ≤ k → k ≤ retries → attemptSuccess (attempts k) = some r →
      (∀ a, attempt ≤ a → a < k → attemptSuccess (attempts a) = none) →
      retryGo attempts retries fuel attempt = some r := by
  intro fuel
  induction fuel with
  | zero =>
    intro attempt k r hinv hk1 hk2 _ _
    omega
  | succ f ih =>
    intro attempt k r hinv hk1 hk2 hsucc hbefore
    rw [retryGo]
    rcases Nat.eq_or_lt_of_le hk1 with he | hlt
    · subst he
      rw [hsucc]
    · have hnone : attemptSuccess (attempts attempt) = none :=
        hbefore attempt (Nat.le_refl _) hlt
      rw [hnone]
      have hltr : attempt < retries := by omega
      rw [if_pos hltr]
      exact ih (attempt + 1) k r (by omega) hlt hk2 hsucc
        (fun a ha1 ha2 => hbefore a (by omega) ha2)

/-! ### State-machine lemmas -/

/-- The population invariant of §3: exactly the completed items carry a
result, exactly the error items carry an error message, and items in a
non-terminal state carry neither. -/
def itemInvariant {α : Type} (it : BatchFeedbackItem α) : Prop :=
  (it.status = .completed → it.result.isSome ∧ it.error = none) ∧
  (it.status = .error → (it.error).isSome ∧ it.result = none) ∧
  ((it.status = .pending ∨ it.status = .processing) → it.result = none ∧ it.error = none)

theorem itemStep_preserves {α : Type} {it it' : BatchFeedbackItem α}
    (hinv : itemInvariant it) (hstep : ItemStep it it') : itemInvariant it' := by
  cases hstep with
  | start h =>
    have hfields := hinv.2.2 (Or.inl h)
    exact ⟨(by intro hc; cases hc), (by intro hc; cases hc), (by intro _; exact hfields)⟩
  | complete r h =>
    have hfields := hinv.2.2 (Or.inr h)
    refine ⟨?_, (by intro hc; cases hc), (by rintro (hc | hc) <;> cases hc)⟩
    intro _
    exact ⟨rfl, hfields.2⟩
  | fail msg h =>
    have hfields := hinv.2.2 (Or.inr h)
    refine ⟨(by intro hc; cases hc), ?_, (by rintro (hc | hc) <;> cases hc)⟩
    intro _
    exact ⟨rfl, hfields.1⟩

theorem mkItem_invariant {α : Type} (i : Nat) (fb : String) :
    itemInvariant (mkItem (α := α) i fb) := by
  refine ⟨fun h => ?_, fun h => ?_, fun _ => ⟨rfl, rfl⟩⟩ <;> cases h

theorem reachable_invariant {α : Type} {i : Nat} {fb : String} {it : BatchFeedbackItem α}
    (h : ItemReachable (mkItem i fb) it) : itemInvariant it := by
  induction h with
  | refl => exact mkItem_invariant i fb
  | tail _ hstep ih => exact itemStep_preserves ih hstep

theorem no_step_of_terminal {α : Type} {it it' : BatchFeedbackItem α}
    (hterm : it.status = .completed ∨ it.status = .error) : ¬ ItemStep it it' := by
  intro hstep
  cases hstep with
  | start h => rcases hterm with hc | hc <;> rw [h] at hc <;> cases hc
  | complete r h => rcases hterm with hc | hc <;> rw [h] at hc <;> cases hc
  | fail msg h => rcases hterm with hc | hc <;> rw [h] at hc <;> cases hc

theorem step_into_processing {α : Type} {it it' : BatchFeedbackItem α}
    (hstep : ItemStep it it') (hproc : it'.status = .processing) : it.status = .pending := by
  cases hstep with
  | start h => exact h
  | complete r h => cases hproc
  | fail msg h => cases hproc

/-- The two write sequences of the scheduler realize the state machine: a
pending item reaches exactly the state `recordOutcome out (setProcessing it)`
through `start` followed by `complete` or `fail`. -/
theorem pipeline_realizes_steps {α : Type} (it : BatchFeedbackItem α)
    (h : it.status = .pending) (out : Option α) :
    ItemReachable it (recordOutcome out (setProcessing it)) := by
  have h1 : ItemStep it (setProcessing it) := ItemStep.start it h
  rcases out with _ | r
  · have h2 : ItemStep (setProcessing it)
        { setProcessing it with status := .error, error := some "Analysis failed after retries" } :=
      ItemStep.fail (setProcessing it) _ rfl
    exact Relation.ReflTransGen.head h1 (Relation.ReflTransGen.single h2)
  · have h2 : ItemStep (setProcessing it)
        { setProcessing it with result := some r, status := .completed } :=
      ItemStep.complete (setProcessing it) r rfl
    exact Relation.ReflTransGen.head h1 (Relation.ReflTransGen.single h2)

/-! ### Helpers for the claim theorems -/

theorem normalizeReply_eq (v : JsVal) (h1 : v ≠ .nullv) (h2 : v ≠ .undefined) :
    normalizeReply v = some
      { sentiment := jsOr (fieldOf v "sentiment") (.str "neutral")
        sentimentScore := jsNullish (fieldOf v "sentimentScore") (.num 50)
        confidence := jsNullish (fieldOf v "confidence") (.num 0)
        urgencyLevel := jsOr (fieldOf v "urgencyLevel") (.str "medium")
        customerIntent := jsOr (fieldOf v "customerIntent") (.str "")
        emotions := jsOr (fieldOf v "emotions") (.arr [])
        keyPhrases := jsOr (fieldOf v "keyPhrases") (.arr [])
        insights := jsOr (fieldOf v "insights") (.arr [])
        recommendations := jsOr (fieldOf v "recommendations") (.arr [])
        summary := jsOr (fieldOf v "summary") (.str "")
        detailedAnalysis := jsOr (fieldOf v "detailedAnalysis") (.str "") } := by
  cases v with
  | undefined => exact absurd rfl h2
  | nullv => exact absurd rfl h1
  | num n => rfl
  | str s => rfl
  | boolv b => rfl
  | arr es => rfl
  | obj fs => rfl

/-- The id sequence created at batch submission (`routes.ts` line 113). -/
def batchIds (n : Nat) : List String :=
  (List.range n).map (fun k => "feedback-" ++ toString (k + 1))

theorem recordOutcome_id {α : Type} (out : Option α) (it : BatchFeedbackItem α) :
    (recordOutcome out (setProcessing it)).id = it.id := by
  cases out <;> rfl

theorem recordOutcome_feedback {α : Type} (out : Option α) (it : BatchFeedbackItem α) :
    (recordOutcome out (setProcessing it)).feedback = it.feedback := by
  cases out <;> rfl

theorem runBatch_ids {α : Type} (fbs : List String) (oracle : Nat → Option α)
    (us : List (Nat × Option α)) (hperm : us.Perm (canonicalUpdates oracle fbs.length)) :
    (runBatch fbs us).map (fun it => it.id) = batchIds fbs.length := by
  apply List.ext_getElem?
  intro k
  by_cases hk : k < fbs.length
  · rw [List.getElem?_map, runBatch_getElem? fbs oracle us hperm k hk,
      List.getElem?_eq_getElem hk]
    have hright : (batchIds fbs.length)[k]? = some ("feedback-" ++ toString (k + 1)) := by
      rw [batchIds, List.getElem?_map, List.getElem?_range hk]
      rfl
    rw [hright]
    cases oracle k <;> rfl
  · have h1 : ((runBatch fbs us).map (fun it => it.id))[k]? = none := by
      refine List.getElem?_eq_none ?_
      rw [List.length_map, runBatch_length]
      omega
    have h2 : (batchIds fbs.length)[k]? = none := by
      refine List.getElem?_eq_none ?_
      rw [batchIds, List.length_map, List.length_range]
      omega
    rw [h1, h2]

theorem batchIds_nodup_100 : (batchIds 100).Nodup := by decide

theorem batchIds_nodup (n : Nat) (h : n ≤ 100) : (batchIds n).Nodup := by
  have hsub : (batchIds n).Sublist (batchIds 100) :=
    (List.range_sublist.mpr h).map _
  exact batchIds_nodup_100.sublist hsub

/-- A well-typed result whose every field is the declared default. -/
def blankResult : SentimentAnalysisResult :=
  { sentiment := .neutral, sentimentScore := 50, confidence := 0, urgencyLevel := .medium
    customerIntent := "", emotions := [], keyPhrases := [], insights := []
    recommendations := [], summary := "", detailedAnalysis := "" }

/-! ### Claim C1 -/

/-- C1 counterexample: the decoded reply supplies `sentimentScore: 150` and
`sentiment: "ecstatic"`; the normalized output keeps both unchanged, so a
numeric field leaves the range 0-100 and an enum field leaves its declared
set, refuting the claimed clamping and enum fallback.  Additionally the reply
that decodes to the JSON literal `null` makes normalization fail (a thrown
`TypeError`), refuting that normalization never fails for every reply that
decodes as JSON. -/
theorem claim_C1_counterexample :
    (normalizeReply (.obj [("sentiment", .str "ecstatic"), ("sentimentScore", .num 150)])).map
        (fun nr => isNumInRange nr.sentimentScore) = some false ∧
    (normalizeReply (.obj [("sentiment", .str "ecstatic"), ("sentimentScore", .num 150)])).map
        (fun nr => isSentimentStr nr.sentiment) = some false ∧
    normalizeReply .nullv = none :=
  ⟨rfl, rfl, rfl⟩

/-- C1 (amended): for every provider reply that decodes as JSON other than
the literal `null`, normalization succeeds; a missing field degrades to its
default (sentiment to neutral, urgencyLevel to medium, score to 50,
confidence to 0, list fields to the empty list, text fields to the empty
string); but a supplied numeric value is passed through unchanged even when
out of range, and a supplied non-empty enum string is passed through
unchanged even when outside its declared set; a reply decoding to `null`
makes normalization throw (handled by the callers' error paths). -/
theorem claim_C1_amended : ∀ v : JsVal, v ≠ .nullv → v ≠ .undefined →
    ∃ nr, normalizeReply v = some nr ∧
      (fieldOf v "sentiment" = .undefined → nr.sentiment = .str "neutral") ∧
      (fieldOf v "sentimentScore" = .undefined → nr.sentimentScore = .num 50) ∧
      (fieldOf v "confidence" = .undefined → nr.confidence = .num 0) ∧
      (fieldOf v "urgencyLevel" = .undefined → nr.urgencyLevel = .str "medium") ∧
      (fieldOf v "customerIntent" = .undefined → nr.customerIntent = .str "") ∧
      (fieldOf v "emotions" = .undefined → nr.emotions = .arr []) ∧
      (fieldOf v "keyPhrases" = .undefined → nr.keyPhrases = .arr []) ∧
      (fieldOf v "insights" = .undefined → nr.insights = .arr []) ∧
      (fieldOf v "recommendations" = .undefined → nr.recommendations = .arr []) ∧
      (fieldOf v "summary" = .undefined → nr.summary = .str "") ∧
      (fieldOf v "detailedAnalysis" = .undefined → nr.detailedAnalysis = .str "") ∧
      (∀ n : Int, fieldOf v "sentimentScore" = .num n → nr.sentimentScore = .num n) ∧
      (∀ s : String, s ≠ "" → fieldOf v "sentiment" = .str s → nr.sentiment = .str s) := by
  intro v h1 h2
  refine ⟨_, normalizeReply_eq v h1 h2, ?_, ?_, ?_, ?_, ?_, ?_, ?_, ?_, ?_, ?_, ?_, ?_, ?_⟩
  · intro h; rw [h]; rfl
  · intro h; rw [h]; rfl
  · intro h; rw [h]; rfl
  · intro h; rw [h]; rfl
  · intro h; rw [h]; rfl
  · intro h; rw [h]; rfl
  · intro h; rw [h]; rfl
  · intro h; rw [h]; rfl
  · intro h; rw [h]; rfl
  · intro h; rw [h]; rfl
  · intro h; rw [h]; rfl
  · intro n h; rw [h]; rfl
  · intro s hs h
    rw [h]
    simp only [jsOr, truthy]
    rw [if_pos (by simpa using hs)]

/-- C1 amended witness: the empty-object reply takes every default. -/
theorem claim_C1_amended_witness :
    ∃ nr, normalizeReply (JsVal.obj []) = some nr ∧
      (fieldOf (JsVal.obj []) "sentiment" = .undefined → nr.sentiment = .str "neutral") ∧
      (fieldOf (JsVal.obj []) "sentimentScore" = .undefined → nr.sentimentScore = .num 50) ∧
      (fieldOf (JsVal.obj []) "confidence" = .undefined → nr.confidence = .num 0) ∧
      (fieldOf (JsVal.obj []) "urgencyLevel" = .undefined → nr.urgencyLevel = .str "medium") ∧
      (fieldOf (JsVal.obj []) "customerIntent" = .undefined → nr.customerIntent = .str "") ∧
      (fieldOf (JsVal.obj []) "emotions" = .undefined → nr.emotions = .arr []) ∧
      (fieldOf (JsVal.obj []) "keyPhrases" = .undefined → nr.keyPhrases = .arr []) ∧
      (fieldOf (JsVal.obj []) "insights" = .undefined → nr.insights = .arr []) ∧
      (fieldOf (JsVal.obj []) "recommendations" = .undefined → nr.recommendations = .arr []) ∧
      (fieldOf (JsVal.obj []) "summary" = .undefined → nr.summary = .str "") ∧
      (fieldOf (JsVal.obj []) "detailedAnalysis" = .undefined → nr.detailedAnalysis = .str "") ∧
      (∀ n : Int, fieldOf (JsVal.obj []) "sentimentScore" = .num n → nr.sentimentScore = .num n) ∧
      (∀ s : String, s ≠ "" → fieldOf (JsVal.obj []) "sentiment" = .str s → nr.sentiment = .str s) :=
  claim_C1_amended (JsVal.obj []) (fun h => nomatch h) (fun h => nomatch h)

/-! ### Claim C2 -/

/-- C2: for every valid batch body of N feedback strings (1 to 100) and
every completion interleaving of the per-item writes (any permutation of the
canonical one-write-per-index sequence, which covers every chunk schedule),
the endpoint returns the processed item list, the list has length exactly N,
and the item at every position k carries the k-th input feedback. -/
theorem claim_C2 : ∀ (fbs : List String) (oracle : Nat → Option SentimentAnalysisResult)
    (us : List (Nat × Option SentimentAnalysisResult)),
    validBatchBody fbs = true →
    us.Perm (canonicalUpdates oracle fbs.length) →
    handleBatch (some fbs) oracle us =
      .ok (runBatch fbs us)
        (generateBatchSummary (runBatch fbs us) (resultsOf oracle fbs.length)) ∧
    (runBatch fbs us).length = fbs.length ∧
    ∀ k : Nat, ((runBatch fbs us)[k]?).map (fun it => it.feedback) = fbs[k]? := by
  intro fbs oracle us hval hperm
  refine ⟨?_, runBatch_length fbs us, ?_⟩
  · show (if validBatchBody fbs then _ else _) = _
    rw [if_pos hval]
  · intro k
    by_cases hk : k < fbs.length
    · rw [runBatch_getElem? fbs oracle us hperm k hk, List.getElem?_eq_getElem hk]
      cases oracle k <;> rfl
    · have h1 : (runBatch fbs us)[k]? = none := by
        refine List.getElem?_eq_none ?_
        rw [runBatch_length]
        omega
      have h2 : fbs[k]? = none := List.getElem?_eq_none (by omega)
      rw [h1, h2]
      rfl

/-- C2 witness: a 3-item batch processed with completion order reversed
relative to submission order still returns the inputs in order. -/
theorem claim_C2_witness :
    handleBatch (some ["a", "b", "c"]) (fun i => if i = 1 then none else some blankResult)
        [(2, some blankResult), (1, none), (0, some blankResult)] =
      .ok (runBatch ["a", "b", "c"]
            [(2, some blankResult), (1, none), (0, some blankResult)])
        (generateBatchSummary
          (runBatch ["a", "b", "c"]
            [(2, some blankResult), (1, none), (0, some blankResult)])
          (resultsOf (fun i => if i = 1 then none else some blankResult) 3)) ∧
    (runBatch ["a", "b", "c"]
      [(2, some blankResult), (1, none), (0, some blankResult)]).length = 3 ∧
    ∀ k : Nat,
      ((runBatch ["a", "b", "c"]
        [(2, some blankResult), (1, none), (0, some blankResult)])[k]?).map
          (fun it => it.feedback) = (["a", "b", "c"] : List String)[k]? :=
  claim_C2 ["a", "b", "c"] (fun i => if i = 1 then none else some blankResult)
    [(2, some blankResult), (1, none), (0, some blankResult)] (by decide) (by decide)

/-! ### Claim C3 -/

/-- C3: the summary's totalCount equals the input length N however many
items soft-fail; and when every item soft-fails (the per-item oracle yields
`none` for every index), the three sentiment counts and both averages are 0
and every returned item has status error. -/
theorem claim_C3 : ∀ (fbs : List String) (oracle : Nat → Option SentimentAnalysisResult)
    (us : List (Nat × Option SentimentAnalysisResult)),
    us.Perm (canonicalUpdates oracle fbs.length) →
    (generateBatchSummary (runBatch fbs us) (resultsOf oracle fbs.length)).totalCount
        = fbs.length ∧
    ((∀ i, i < fbs.length → oracle i = none) →
      (generateBatchSummary (runBatch fbs us)
          (resultsOf oracle fbs.length)).positiveCount = 0 ∧
      (generateBatchSummary (runBatch fbs us)
          (resultsOf oracle fbs.length)).negativeCount = 0 ∧
      (generateBatchSummary (runBatch fbs us)
          (resultsOf oracle fbs.length)).neutralCount = 0 ∧
      (generateBatchSummary (runBatch fbs us)
          (resultsOf oracle fbs.length)).averageSentimentScore = 0 ∧
      (generateBatchSummary (runBatch fbs us)
          (resultsOf oracle fbs.length)).averageConfidence = 0 ∧
      ∀ it ∈ runBatch fbs us, it.status = .error) := by
  intro fbs oracle us hperm
  constructor
  · exact runBatch_length fbs us
  · intro hall
    have hres : resultsOf oracle fbs.length = [] := by
      refine List.filterMap_eq_nil_iff.mpr ?_
      intro a ha
      exact hall a (List.mem_range.mp ha)
    rw [hres]
    refine ⟨rfl, rfl, rfl, rfl, rfl, ?_⟩
    intro it hit
    rcases List.mem_iff_getElem?.mp hit with ⟨k, hk⟩
    have hklt : k < fbs.length := by
      by_contra hge
      rw [List.getElem?_eq_none (by rw [runBatch_length]; omega)] at hk
      cases hk
    rw [runBatch_getElem? fbs oracle us hperm k hklt, List.getElem?_eq_getElem hklt,
      hall k hklt] at hk
    have := Option.some.inj hk
    rw [← this]
    rfl

/-- C3 witness: a 2-item batch where both items soft-fail. -/
theorem claim_C3_witness :
    (generateBatchSummary (runBatch ["x", "y"] [(0, none), (1, none)])
        (resultsOf (fun _ => (none : Option SentimentAnalysisResult)) 2)).totalCount = 2 ∧
    ((generateBatchSummary (runBatch ["x", "y"] [(0, none), (1, none)])
        (resultsOf (fun _ => (none : Option SentimentAnalysisResult)) 2)).positiveCount = 0 ∧
      (generateBatchSummary (runBatch ["x", "y"] [(0, none), (1, none)])
        (resultsOf (fun _ => (none : Option SentimentAnalysisResult)) 2)).negativeCount = 0 ∧
      (generateBatchSummary (runBatch ["x", "y"] [(0, none), (1, none)])
        (resultsOf (fun _ => (none : Option SentimentAnalysisResult)) 2)).neutralCount = 0 ∧
      (generateBatchSummary (runBatch ["x", "y"] [(0, none), (1, none)])
        (resultsOf (fun _ => (none : Option SentimentAnalysisResult)) 2)).averageSentimentScore
          = 0 ∧
      (generateBatchSummary (runBatch ["x", "y"] [(0, none), (1, none)])
        (resultsOf (fun _ => (none : Option SentimentAnalysisResult)) 2)).averageConfidence
          = 0 ∧
      ∀ it ∈ runBatch (α := SentimentAnalysisResult) ["x", "y"] [(0, none), (1, none)],
        it.status = .error) :=
  ⟨(claim_C3 ["x", "y"] (fun _ => none) [(0, none), (1, none)] (by decide)).1,
    (claim_C3 ["x", "y"] (fun _ => none) [(0, none), (1, none)] (by decide)).2
      (fun _ _ => rfl)⟩

/-! ### Claim C5 -/

/-- C5 counterexample: the item at input position 0 of a submitted batch is
created with id `feedback-1` (the source uses `index + 1`), not `feedback-0`,
so the id is not `feedback-` followed by the position. -/
theorem claim_C5_counterexample :
    (runBatch (α := SentimentAnalysisResult) ["hi"] [(0, none)]).map (fun it => it.id)
        = ["feedback-1"] ∧
    ("feedback-1" : String) ≠ "feedback-0" :=
  ⟨rfl, by decide⟩

/-- C5 (amended): the FeedbackItem at input position n is created with id
`feedback-` followed by n + 1 (one-based, derived from the input list
index), ids are unique and stable within any batch the endpoint admits
(N at most 100), and no item is ever deleted: the processed list keeps one
item per input, failed items included, for every completion interleaving. -/
theorem claim_C5_amended : ∀ (fbs : List String)
    (oracle : Nat → Option SentimentAnalysisResult)
    (us : List (Nat × Option SentimentAnalysisResult)),
    us.Perm (canonicalUpdates oracle fbs.length) →
    fbs.length ≤ 100 →
    (∀ k, k < fbs.length →
      ((runBatch fbs us)[k]?).map (fun it => it.id)
        = some ("feedback-" ++ toString (k + 1))) ∧
    ((runBatch fbs us).map (fun it => it.id)).Nodup ∧
    (runBatch fbs us).length = fbs.length := by
  intro fbs oracle us hperm hlen
  refine ⟨?_, ?_, runBatch_length fbs us⟩
  · intro k hk
    rw [runBatch_getElem? fbs oracle us hperm k hk, List.getElem?_eq_getElem hk]
    cases oracle k <;> rfl
  · rw [runBatch_ids fbs oracle us hperm]
    exact batchIds_nodup fbs.length hlen

/-- C5 amended witness: a 2-item batch gets ids feedback-1, feedback-2. -/
theorem claim_C5_amended_witness :
    (∀ k, k < (["u", "v"] : List String).length →
      ((runBatch (α := SentimentAnalysisResult) ["u", "v"] [(1, none), (0, none)])[k]?).map
          (fun it => it.id) = some ("feedback-" ++ toString (k + 1))) ∧
    ((runBatch (α := SentimentAnalysisResult) ["u", "v"]
        [(1, none), (0, none)]).map (fun it => it.id)).Nodup ∧
    (runBatch (α := SentimentAnalysisResult) ["u", "v"] [(1, none), (0, none)]).length
        = (["u", "v"] : List String).length :=
  claim_C5_amended ["u", "v"] (fun _ => none) [(1, none), (0, none)]
    (by decide) (by decide)

/-! ### Claim C10 -/

/-- C10: whenever the batch endpoint answers 200 with an item list, every
returned item is terminal: completed with a result attached, or error with
an error message attached; never pending or processing. -/
theorem claim_C10 : ∀ (fbs : List String) (oracle : Nat → Option SentimentAnalysisResult)
    (us : List (Nat × Option SentimentAnalysisResult))
    (items : List (BatchFeedbackItem SentimentAnalysisResult))
    (summary : BatchAnalysisSummary),
    us.Perm (canonicalUpdates oracle fbs.length) →
    handleBatch (some fbs) oracle us = .ok items summary →
    ∀ it ∈ items,
      (it.status = .completed ∧ it.result.isSome ∧ it.status ≠ .pending ∧
        it.status ≠ .processing) ∨
      (it.status = .error ∧ (it.error).isSome ∧ it.status ≠ .pending ∧
        it.status ≠ .processing) := by
  intro fbs oracle us items summary hperm hok
  have hitems : items = runBatch fbs us := by
    by_cases hval : validBatchBody fbs = true
    · have : handleBatch (some fbs) oracle us =
          .ok (runBatch fbs us)
            (generateBatchSummary (runBatch fbs us) (resultsOf oracle fbs.length)) := by
        show (if validBatchBody fbs then _ else _) = _
        rw [if_pos hval]
      rw [this] at hok
      have h' := (BatchResponse.ok.injEq _ _ _ _).mp hok.symm
      exact h'.1
    · have : handleBatch (some fbs) oracle us = .badRequest := by
        show (if validBatchBody fbs then _ else _) = _
        rw [if_neg hval]
      rw [this] at hok
      cases hok
  subst hitems
  intro it hit
  rcases List.mem_iff_getElem?.mp hit with ⟨k, hk⟩
  have hklt : k < fbs.length := by
    by_contra hge
    rw [List.getElem?_eq_none (by rw [runBatch_length]; omega)] at hk
    cases hk
  rw [runBatch_getElem? fbs oracle us hperm k hklt, List.getElem?_eq_getElem hklt] at hk
  have hit_eq := Option.some.inj hk
  rcases ho : oracle k with _ | r
  · rw [ho] at hit_eq
    right
    rw [← hit_eq]
    exact ⟨rfl, rfl, (by intro hc; cases hc), (by intro hc; cases hc)⟩
  · rw [ho] at hit_eq
    left
    rw [← hit_eq]
    exact ⟨rfl, rfl, (by intro hc; cases hc), (by intro hc; cases hc)⟩

def witnessItemC10 : BatchFeedbackItem SentimentAnalysisResult :=
  recordOutcome (some blankResult) (setProcessing (mkItem 0 "p"))

/-- C10 witness: the first item of a 2-item batch with one success and one
soft failure is terminal with its result attached. -/
theorem claim_C10_witness :
    (witnessItemC10.status = .completed ∧ witnessItemC10.result.isSome ∧
      witnessItemC10.status ≠ .pending ∧ witnessItemC10.status ≠ .processing) ∨
    (witnessItemC10.status = .error ∧ (witnessItemC10.error).isSome ∧
      witnessItemC10.status ≠ .pending ∧ witnessItemC10.status ≠ .processing) :=
  claim_C10 ["p", "q"] (fun i => if i = 0 then some blankResult else none)
    [(0, some blankResult), (1, none)]
    (runBatch ["p", "q"] [(0, some blankResult), (1, none)])
    (generateBatchSummary (runBatch ["p", "q"] [(0, some blankResult), (1, none)])
      (resultsOf (fun i => if i = 0 then some blankResult else none) 2))
    (by decide) rfl witnessItemC10 (by decide)

/-! ### Claim C4 -/

theorem gBS_commonThemes (items : List (BatchFeedbackItem SentimentAnalysisResult))
    (results : List SentimentAnalysisResult) :
    (generateBatchSummary items results).commonThemes = commonThemesOf results := rfl

theorem gBS_topEmotions (items : List (BatchFeedbackItem SentimentAnalysisResult))
    (results : List SentimentAnalysisResult) :
    (generateBatchSummary items results).topEmotions = topEmotionsOf results := rfl

/-- Total number of key-phrase occurrences (across all completed results)
whose lowercased text is `p`. -/
def phraseOccurrences (results : List SentimentAnalysisResult) (p : String) : Nat :=
  (phraseKeysOf results).count p

/-- Number of distinct completed results containing a key phrase whose
lowercased text is `p`. -/
def distinctItemOccurrences (results : List SentimentAnalysisResult) (p : String) : Nat :=
  (results.filter (fun r => r.keyPhrases.any (fun kp => jsToLower kp.phrase == p))).length

theorem themePairsSorted_mem {results : List SentimentAnalysisResult} {p : String × Nat}
    (h : p ∈ themePairsSorted results) :
    p.2 = phraseOccurrences results p.1 ∧ 1 < p.2 := by
  have h1 : p ∈ themePairsFiltered results := ((sortCountDesc_perm _).mem_iff).mp h
  have h2 := List.mem_filter.mp h1
  have h3 : p ∈ phraseCountMap results := (entriesJS_perm _).mem_iff.mp h2.1
  exact ⟨countMap_mem_count h3, of_decide_eq_true h2.2⟩

def c4Result : SentimentAnalysisResult :=
  { blankResult with keyPhrases := [⟨"Great", .positive⟩, ⟨"great", .positive⟩] }

/-- C4 counterexample: a single completed item whose key-phrase list holds
the phrase twice (differing only in case) puts `great` into commonThemes
although it occurs in only one completed item — the counting is by total
occurrences, not by distinct items. -/
theorem claim_C4_counterexample :
    commonThemesOf [c4Result] = ["great"] ∧
    distinctItemOccurrences [c4Result] "great" = 1 :=
  ⟨rfl, rfl⟩

/-- C4 (amended): commonThemes contains exactly the lowercased key phrases
whose total occurrence count across completed items is at least 2 (whenever
at most 10 phrases qualify; always truncated to at most 10 entries), sorted
by that count descending. -/
theorem claim_C4_amended : ∀ (items : List (BatchFeedbackItem SentimentAnalysisResult))
    (results : List SentimentAnalysisResult),
    (∀ p ∈ (generateBatchSummary items results).commonThemes,
        2 ≤ phraseOccurrences results p) ∧
    (generateBatchSummary items results).commonThemes.length ≤ 10 ∧
    ((generateBatchSummary items results).commonThemes.Pairwise
        (fun p q => phraseOccurrences results q ≤ phraseOccurrences results p)) ∧
    (∀ p : String, 2 ≤ phraseOccurrences results p →
        (themePairsFiltered results).length ≤ 10 →
        p ∈ (generateBatchSummary items results).commonThemes) := by
  intro items results
  refine ⟨?_, ?_, ?_, ?_⟩
  · intro p hp
    rw [gBS_commonThemes, commonThemesOf] at hp
    rcases List.mem_map.mp hp with ⟨q, hq, rfl⟩
    have hq' : q ∈ themePairsSorted results := List.mem_of_mem_take hq
    have hv := themePairsSorted_mem hq'
    rw [← hv.1]
    omega
  · rw [gBS_commonThemes, commonThemesOf, List.length_map]
    exact List.length_take_le 10 _
  · rw [gBS_commonThemes, commonThemesOf, List.pairwise_map]
    have hs : (themePairsSorted results).Pairwise (fun a b => b.2 ≤ a.2) :=
      sortCountDesc_pairwise _
    have htake := hs.sublist (List.take_sublist 10 _)
    refine List.Pairwise.imp_of_mem ?_ htake
    intro a b ha hb hle
    have ha' := themePairsSorted_mem (List.mem_of_mem_take ha)
    have hb' := themePairsSorted_mem (List.mem_of_mem_take hb)
    rw [← ha'.1, ← hb'.1]
    exact hle
  · intro p hocc hlen
    have hmemks : p ∈ phraseKeysOf results := by
      refine List.count_pos_iff.mp ?_
      have : 2 ≤ (phraseKeysOf results).count p := hocc
      omega
    have hkeymem : p ∈ (phraseCountMap results).map Prod.fst :=
      (countMap_keys_mem _ p).mpr hmemks
    rcases List.mem_map.mp hkeymem with ⟨q, hq, hqfst⟩
    have hqval : q.2 = (phraseKeysOf results).count q.1 := countMap_mem_count hq
    have hq2 : 1 < q.2 := by
      rw [hqval, hqfst]
      exact lt_of_lt_of_le (by omega) hocc
    have hqe : q ∈ entriesJS (phraseCountMap results) := (entriesJS_perm _).mem_iff.mpr hq
    have hqf : q ∈ themePairsFiltered results :=
      List.mem_filter.mpr ⟨hqe, by simpa using hq2⟩
    have hqs : q ∈ themePairsSorted results := (sortCountDesc_perm _).mem_iff.mpr hqf
    have hlens : (themePairsSorted results).length = (themePairsFiltered results).length :=
      (sortCountDesc_perm _).length_eq
    have htake : (themePairsSorted results).take 10 = themePairsSorted results :=
      List.take_of_length_le (by omega)
    rw [gBS_commonThemes, commonThemesOf, htake]
    exact List.mem_map.mpr ⟨q, hqs, hqfst⟩

/-- C4 amended witness: the doubled `great` phrase reaches commonThemes of
the concrete batch, and every listed theme occurs at least twice. -/
theorem claim_C4_amended_witness :
    "great" ∈ (generateBatchSummary [] [c4Result]).commonThemes ∧
    2 ≤ phraseOccurrences [c4Result] "great" :=
  ⟨(claim_C4_amended [] [c4Result]).2.2.2 "great" (by decide) (by decide),
    (claim_C4_amended [] [c4Result]).1 "great"
      ((claim_C4_amended [] [c4Result]).2.2.2 "great" (by decide) (by decide))⟩

/-! ### Claim C9 -/

def c9ResultJoy : SentimentAnalysisResult :=
  { blankResult with emotions := [⟨"joy", 80⟩] }

def c9ResultZero : SentimentAnalysisResult :=
  { blankResult with emotions := [⟨"0", 10⟩] }

/-- C9 counterexample: with emotions named `joy` (seen first) and `0`, both
counted once, the summary's topEmotions is `0` then `joy`: the ECMAScript
object enumeration order puts the integer-like key `0` before the
insertion-ordered keys, so the tie between equal counts is not broken by
first-seen order.  The key list in first-seen order is `joy`, `0`. -/
theorem claim_C9_counterexample :
    (generateBatchSummary [] [c9ResultJoy, c9ResultZero]).topEmotions
        = [("0", 1), ("joy", 1)] ∧
    emotionKeysOf [c9ResultJoy, c9ResultZero] = ["joy", "0"] :=
  ⟨rfl, rfl⟩

/-- C9 (amended): the Aggregator is a pure function of the final item list
and extracted results (the embedding is a total function and repeated
application yields identical summaries); every sort is by count descending
(the sorted count sequences are nonincreasing), and ties are broken by the
enumeration order of the underlying count record — integer-like keys in
ascending numeric order first, then first-seen insertion order — which the
stable sort preserves (filtering any single count value out of the sorted
list returns exactly the enumeration-ordered entries with that count). -/
theorem claim_C9_amended : ∀ (items : List (BatchFeedbackItem SentimentAnalysisResult))
    (results : List SentimentAnalysisResult),
    generateBatchSummary items results = generateBatchSummary items results ∧
    (generateBatchSummary items results).topEmotions.Pairwise (fun a b => b.2 ≤ a.2) ∧
    (∀ c : Nat, (emotionPairsSorted results).filter (fun p => p.2 == c)
        = (entriesJS (emotionCountMap results)).filter (fun p => p.2 == c)) ∧
    (themePairsSorted results).Pairwise (fun a b => b.2 ≤ a.2) ∧
    (∀ c : Nat, (themePairsSorted results).filter (fun p => p.2 == c)
        = (themePairsFiltered results).filter (fun p => p.2 == c)) ∧
    (recPairsSorted results).Pairwise (fun a b => b.2 ≤ a.2) ∧
    (∀ c : Nat, (recPairsSorted results).filter (fun p => p.2 == c)
        = ((entriesJS (recCountMap results)).map (fun p => p.2)).filter
            (fun p => p.2 == c)) := by
  intro items results
  refine ⟨rfl, ?_, ?_, sortCountDesc_pairwise _, ?_, sortCountDesc_pairwise _, ?_⟩
  · rw [gBS_topEmotions, topEmotionsOf]
    exact (sortCountDesc_pairwise _).sublist (List.take_sublist 5 _)
  · intro c
    exact sortCountDesc_filter_count _ c
  · intro c
    exact sortCountDesc_filter_count _ c
  · intro c
    exact sortCountDesc_filter_count _ c

/-! ### Claim C6 -/

/-- C6: the retry wrapper always produces a value (`some` result or the
`none` soft-failure signal, never a propagated exception — every outcome of
the underlying call, including thrown errors, malformed JSON and empty
content, is folded into `attemptSuccess`); it returns `none` exactly when
every attempt in the budget `1..retries` fails; a first success at attempt k
within the budget yields that normalized result; and the batch-mode default
budget is 2 attempts. -/
theorem claim_C6 : ∀ (attempts : Nat → AttemptOutcome) (retries : Nat),
    (analyzeSingleFeedback attempts = analyzeSingleFeedback attempts 2) ∧
    (analyzeSingleFeedback attempts retries = none ↔
      ∀ a, 1 ≤ a → a ≤ retries → attemptSuccess (attempts a) = none) ∧
    (∀ k r, 1 ≤ k → k ≤ retries → attemptSuccess (attempts k) = some r →
      (∀ a, 1 ≤ a → a < k → attemptSuccess (attempts a) = none) →
      analyzeSingleFeedback attempts retries = some r) := by
  intro attempts retries
  refine ⟨rfl, ?_, ?_⟩
  · exact retryGo_none_iff attempts retries retries 1 (by omega)
  · intro k r hk1 hk2 hsucc hbefore
    exact retryGo_first_success attempts retries retries 1 k r (by omega) hk1 hk2
      hsucc hbefore

def failThenOk : Nat → AttemptOutcome :=
  fun a => if a = 1 then .exn "network error" else .json (.obj [])

/-- The normalization of the empty-object reply: every default. -/
def defaultsRaw : NormalizedRaw :=
  { sentiment := .str "neutral", sentimentScore := .num 50, confidence := .num 0
    urgencyLevel := .str "medium", customerIntent := .str "", emotions := .arr []
    keyPhrases := .arr [], insights := .arr [], recommendations := .arr []
    summary := .str "", detailedAnalysis := .str "" }

/-- C6 witness: a thrown first attempt is retried and the second attempt's
result is returned; two thrown attempts give the soft-failure signal. -/
theorem claim_C6_witness :
    analyzeSingleFeedback failThenOk 2 = some defaultsRaw ∧
    analyzeSingleFeedback (fun _ => AttemptOutcome.exn "down") 2 = none :=
  ⟨(claim_C6 failThenOk 2).2.2 2 defaultsRaw (by omega) (by omega) rfl
      (fun a h1 h2 => by
        have ha : a = 1 := by omega
        subst ha
        rfl),
    (claim_C6 (fun _ => AttemptOutcome.exn "down") 2).2.1.mpr (fun a h1 h2 => rfl)⟩

/-! ### Claim C7 -/

/-- C7: every FeedbackItem starts pending; along any sequence of scheduler
transitions, a completed item carries a result and no error message, an
error item carries an error message and no result, and pending or processing
items carry neither; completed and error are terminal (no transition leaves
them); and the only transition into processing starts from pending. -/
theorem claim_C7 : ∀ (α : Type) (i : Nat) (fb : String) (it it' : BatchFeedbackItem α),
    (mkItem (α := α) i fb).status = .pending ∧
    (ItemReachable (mkItem i fb) it →
      (it.status = .completed → it.result.isSome ∧ it.error = none) ∧
      (it.status = .error → (it.error).isSome ∧ it.result = none) ∧
      ((it.status = .pending ∨ it.status = .processing) →
        it.result = none ∧ it.error = none)) ∧
    ((it.status = .completed ∨ it.status = .error) → ¬ ItemStep it it') ∧
    (ItemStep it it' → it'.status = .processing → it.status = .pending) := by
  intro α i fb it it'
  exact ⟨rfl, fun h => reachable_invariant h, fun h => no_step_of_terminal h,
    fun h1 h2 => step_into_processing h1 h2⟩

def witnessItemC7 : BatchFeedbackItem SentimentAnalysisResult :=
  recordOutcome (some blankResult) (setProcessing (mkItem 0 "w"))

/-- C7 witness: the item produced by the success write sequence is reachable
from the initial pending item, satisfies the population invariant, and
admits no further transition. -/
theorem claim_C7_witness :
    ((witnessItemC7.status = .completed →
        witnessItemC7.result.isSome ∧ witnessItemC7.error = none) ∧
      (witnessItemC7.status = .error →
        (witnessItemC7.error).isSome ∧ witnessItemC7.result = none) ∧
      ((witnessItemC7.status = .pending ∨ witnessItemC7.status = .processing) →
        witnessItemC7.result = none ∧ witnessItemC7.error = none)) ∧
    ¬ ItemStep witnessItemC7 (mkItem (α := SentimentAnalysisResult) 0 "w") :=
  ⟨(claim_C7 SentimentAnalysisResult 0 "w" witnessItemC7 (mkItem 0 "w")).2.1
      (pipeline_realizes_steps (mkItem 0 "w") rfl (some blankResult)),
    (claim_C7 SentimentAnalysisResult 0 "w" witnessItemC7 (mkItem 0 "w")).2.2.1
      (Or.inl rfl)⟩

/-! ### Claim C8 -/

/-- C8 counterexample: an upstream connection timeout (a thrown error that
carries no HTTP status, so neither catch branch matches) is answered with
status 500, not the claimed 503 — `routes.ts` has no 503 branch at all. -/
theorem claim_C8_counterexample :
    handleAnalyze (some "hi") (.errTimeout "Request timed out.")
        = .serverError "Request timed out." ∧
    statusCode (handleAnalyze (some "hi") (.errTimeout "Request timed out.")) = 500 ∧
    (500 : Nat) ≠ 503 :=
  ⟨rfl, rfl, by decide⟩

/-- C8 (amended): POST /api/analyze responds 400 on schema violation, 401 on
upstream status 401 (invalid credentials), 429 on upstream status 429 (rate
limiting), 500 with a message on an upstream timeout (no 503 exists), on any
other thrown error, on empty or malformed upstream content, and on a reply
decoding to `null`; on success it responds 200 with the normalized result
with defaults applied. -/
theorem claim_C8_amended : ∀ (fb : String) (outcome : ProviderOutcome) (code : Nat)
    (msg : String) (v : JsVal) (nr : NormalizedRaw),
    (handleAnalyze none outcome = .badRequest) ∧
    (validFeedback fb = false → handleAnalyze (some fb) outcome = .badRequest) ∧
    (validFeedback fb = true →
      handleAnalyze (some fb) (.errStatus 401 msg) = .unauthorized ∧
      handleAnalyze (some fb) (.errStatus 429 msg) = .rateLimited ∧
      (code ≠ 401 → code ≠ 429 →
        handleAnalyze (some fb) (.errStatus code msg) = .serverError msg) ∧
      handleAnalyze (some fb) (.errTimeout msg) = .serverError msg ∧
      handleAnalyze (some fb) (.errOther msg) = .serverError msg ∧
      handleAnalyze (some fb) .emptyContent = .serverError "Empty response from AI" ∧
      handleAnalyze (some fb) (.malformedContent msg) = .serverError msg ∧
      (normalizeReply v = some nr → handleAnalyze (some fb) (.jsonContent v) = .ok nr) ∧
      (normalizeReply v = none →
        handleAnalyze (some fb) (.jsonContent v) = .serverError nullFieldAccessMsg)) ∧
    statusCode .badRequest = 400 ∧
    statusCode .unauthorized = 401 ∧
    statusCode .rateLimited = 429 ∧
    statusCode (.serverError msg) = 500 ∧
    statusCode (.ok nr) = 200 := by
  intro fb outcome code msg v nr
  refine ⟨rfl, ?_, ?_, rfl, rfl, rfl, rfl, rfl⟩
  · intro h
    simp [handleAnalyze, h]
  · intro h
    refine ⟨?_, ?_, ?_, ?_, ?_, ?_, ?_, ?_, ?_⟩
    · simp [handleAnalyze, h]
    · simp [handleAnalyze, h]
    · intro h1 h2
      simp [handleAnalyze, h, h1, h2]
    · simp [handleAnalyze, h]
    · simp [handleAnalyze, h]
    · simp [handleAnalyze, h]
    · simp [handleAnalyze, h]
    · intro hn
      simp [handleAnalyze, h, hn]
    · intro hn
      simp [handleAnalyze, h, hn]

/-- C8 amended witness: concrete dispatches of each interesting branch. -/
theorem claim_C8_witness :
    handleAnalyze (some "ok") (.errTimeout "m") = .serverError "m" ∧
    handleAnalyze (some "ok") (.errStatus 500 "m") = .serverError "m" ∧
    handleAnalyze (some "ok") (.jsonContent (.obj [])) = .ok defaultsRaw ∧
    handleAnalyze none (.errOther "e") = .badRequest :=
  ⟨((claim_C8_amended "ok" (.errOther "e") 500 "m" (.obj []) defaultsRaw).2.2.1
      rfl).2.2.2.1,
    (((claim_C8_amended "ok" (.errOther "e") 500 "m" (.obj []) defaultsRaw).2.2.1
      rfl).2.2.1) (by decide) (by decide),
    (((claim_C8_amended "ok" (.errOther "e") 500 "m" (.obj []) defaultsRaw).2.2.1
      rfl).2.2.2.2.2.2.2.1) rfl,
    (claim_C8_amended "ok" (.errOther "e") 500 "m" (.obj []) defaultsRaw).1⟩
